import Mathlib

/- Shallow embedding of src/lib/http_request.js (carlo).

The JavaScript class HttpRequest wraps one intercepted network request.
Its fields are params_ (never reassigned), handlers_ (a queue of handler
callbacks consumed front to back by callNextHandler_) and done_ (the
resolution flag checked by resolve_).  Decision methods send protocol
commands through session_.send; the embedding records every send, every
handler invocation and every raised resolution-conflict error in an
observation trace.

A handler callback is embedded as a script: the ordered list of
decision-method calls it performs on the event.  continue() re-enters
callNextHandler_, which invokes the next queued handler synchronously;
the embedding models the resulting nested execution with an explicit
stack of frames (the suspended remainders of handler scripts). -/

namespace Carlo

/-- Inbound request descriptor (params.request): url, method and a
possibly absent header mapping. -/
structure RequestDescriptor where
  url : String
  method : String
  headers : Option (List (String × String))
deriving DecidableEq, Repr

/-- Interception notification params: requestId, request descriptor and
resourceType, as captured by the constructor into this.params_. -/
structure InterceptParams where
  requestId : String
  request : RequestDescriptor
  resourceType : String
deriving DecidableEq, Repr

/-- One entry of the responseHeaders list built by fulfill. -/
structure Header where
  name : String
  value : String
deriving DecidableEq, Repr

/-- A protocol command handed to session_.send, with its parameter
object.  continueRequest carries the optional override fields url,
method, headers exactly when the corresponding property was set on the
params object. -/
inductive Command where
  | failRequest (requestId : String) (errorReason : String)
  | continueRequest (requestId : String) (url : Option String)
      (method : Option String) (headers : Option (List (String × String)))
  | fulfillRequest (requestId : String) (responseCode : Nat)
      (responseHeaders : List Header) (body : String)
deriving DecidableEq, Repr

/-- The protocol method name string passed as first argument to
session_.send for each command. -/
def commandName : Command → String
  | Command.failRequest _ _ => "Fetch.failRequest"
  | Command.continueRequest _ _ _ _ => "Fetch.continueRequest"
  | Command.fulfillRequest _ _ _ _ => "Fetch.fulfillRequest"

/-- Argument object of deferToBrowser.  Each field is absent (none) or a
supplied value; a supplied string may still be falsy (empty). -/
structure Overrides where
  url : Option String
  method : Option String
  headers : Option (List (String × String))
deriving DecidableEq, Repr

/-- Argument object of fulfill: status, headers, body, each optional. -/
structure FulfillOptions where
  status : Option Nat
  headers : Option (List (String × String))
  body : Option String
deriving DecidableEq, Repr

/-- JavaScript truthiness filter for an optional string field: an absent
field and the empty string are falsy, so they do not pass the test
`overrides && overrides.url`. -/
def truthyStr : Option String → Option String
  | some s => if s = "" then none else some s
  | none => none

/-- Parameter object built by deferToBrowser before calling resolve_:
each of url, method, headers is copied iff its truthiness test passes
(for the headers object, presence suffices: any object is truthy). -/
def continueCommand (requestId : String) (ov : Option Overrides) : Command :=
  match ov with
  | none => Command.continueRequest requestId none none none
  | some o =>
      Command.continueRequest requestId (truthyStr o.url) (truthyStr o.method) o.headers

/-- JavaScript `status || 200`: an absent or zero status falls back
to 200. -/
def jsStatusOr200 : Option Nat → Nat
  | some s => if s = 0 then 200 else s
  | none => 200

/-- UTF-8 encoding of one character as byte values, as Buffer.byteLength
and Buffer.from count a JavaScript string. -/
def utf8EncodeCharNat (c : Char) : List Nat :=
  let n := c.toNat
  if n < 128 then [n]
  else if n < 2048 then [192 + n / 64, 128 + n % 64]
  else if n < 65536 then [224 + n / 4096, 128 + n / 64 % 64, 128 + n % 64]
  else [240 + n / 262144, 128 + n / 4096 % 64, 128 + n / 64 % 64, 128 + n % 64]

/-- The UTF-8 bytes of a string. -/
def stringBytes (s : String) : List Nat :=
  (s.data.map utf8EncodeCharNat).flatten

/-- Buffer.byteLength of a string body. -/
def byteLength (s : String) : Nat :=
  (stringBytes s).length

/-- The base64 alphabet. -/
def base64Alphabet : String :=
  "ABCDEFGHIJKLMNOPQRSTUVWXYZabcdefghijklmnopqrstuvwxyz0123456789+/"

/-- Character for one 6-bit value. -/
def sextet (n : Nat) : Char :=
  base64Alphabet.toList.getD n 'A'

/-- Value of one base64 character. -/
def sextetVal (c : Char) : Nat :=
  base64Alphabet.toList.indexOf c

/-- Standard base64 encoding of a byte sequence, with padding, as
Buffer.prototype.toString with encoding base64 produces it. -/
def base64Encode : List Nat → String
  | [] => ""
  | [a] => String.mk [sextet (a / 4), sextet (a % 4 * 16), '=', '=']
  | [a, b] => String.mk [sextet (a / 4), sextet (a % 4 * 16 + b / 16), sextet (b % 16 * 4), '=']
  | a :: b :: c :: rest =>
      String.mk [sextet (a / 4), sextet (a % 4 * 16 + b / 16),
        sextet (b % 16 * 4 + c / 64), sextet (c % 64)] ++ base64Encode rest

/-- Base64 decoding of the sextet values, four at a time. -/
def decodeChunks : List Nat → List Nat
  | a :: b :: c :: d :: rest =>
      (a * 4 + b / 16) :: (b % 16 * 16 + c / 4) :: (c % 4 * 64 + d) :: decodeChunks rest
  | [a, b] => [a * 4 + b / 16]
  | [a, b, c] => [a * 4 + b / 16, b % 16 * 16 + c / 4]
  | _ => []

/-- Base64 decoding of a padded base64 string back to bytes. -/
def base64Decode (s : String) : List Nat :=
  decodeChunks ((s.toList.filter (fun c => c ≠ '=')).map sextetVal)

/-- Lower-casing of a header name, character by character, as
String.prototype.toLowerCase acts on the ASCII names the protocol
uses. -/
def lowerString (s : String) : String :=
  String.mk (s.data.map Char.toLower)

/-- Header-shaping loop of fulfill: lower-case every supplied header
name, keep the value verbatim, and remember whether some supplied name
lower-cases to content-length. -/
def shapeHeaders (hm : List (String × String)) : List Header × Bool :=
  hm.foldl
    (fun acc h =>
      let headerName := lowerString h.1
      (acc.1 ++ [Header.mk headerName h.2], acc.2 || (headerName == "content-length")))
    ([], false)

/-- JavaScript `body || Buffer.from('')` for a string body: a falsy
(absent or empty) body becomes the empty byte sequence. -/
def jsBodyString : Option String → String
  | some b => if b = "" then "" else b
  | none => ""

/-- The Fetch.fulfillRequest command assembled by fulfill: defaulted
status, shaped headers plus a computed content-length entry when a
truthy body was supplied without one, and the base64-encoded body. -/
def fulfillCommand (requestId : String) (o : FulfillOptions) : Command :=
  let status := jsStatusOr200 o.status
  let shaped :=
    match o.headers with
    | some hm => shapeHeaders hm
    | none => ([], false)
  let bodyTruthy : Bool :=
    match o.body with
    | some b => !(b == "")
    | none => false
  let responseHeaders :=
    if bodyTruthy && !shaped.2 then
      shaped.1 ++ [Header.mk "content-length" (toString (byteLength (jsBodyString o.body)))]
    else shaped.1
  Command.fulfillRequest requestId status responseHeaders
    (base64Encode (stringBytes (jsBodyString o.body)))

/-- One decision-method call a handler can perform on the event. -/
inductive Decision where
  | abort
  | fail
  | cont
  | deferToBrowser (overrides : Option Overrides)
  | fulfill (options : FulfillOptions)
deriving DecidableEq, Repr

/-- The mutable state of one HttpRequest instance: the captured
notification params, the handler queue (each handler tagged with its
registration index, used only for the observation trace) and the done_
flag. -/
structure EventState where
  params : InterceptParams
  handlers : List (Nat × List Decision)
  done : Bool
deriving DecidableEq, Repr

/-- One observable step: a handler invocation, a session_.send, or the
resolution-conflict error thrown by resolve_. -/
inductive TraceEvent where
  | invoke (k : Nat)
  | cmd (c : Command)
  | resolutionError
deriving DecidableEq, Repr

/-- Termination measure contribution of the frame stack. -/
def framesWeight (l : List (List Decision)) : Nat :=
  (l.map (fun f => f.length + 1)).sum

/-- Termination measure contribution of the handler queue. -/
def queueWeight (l : List (Nat × List Decision)) : Nat :=
  (l.map (fun kh => kh.2.length + 1)).sum

/-- Synchronous execution of the event.  The first argument is the stack
of script frames: the top frame is the remainder of the currently
running handler (or constructor) body, the frames below it are the
suspended remainders of its callers.  Each branch mirrors one decision
method of the source:
abort and fail set done_ and send Fetch.failRequest unconditionally;
cont runs callNextHandler_, which shifts the queue and invokes the next
handler, or calls resolve_ with an empty params object;
deferToBrowser builds its params object and calls resolve_;
fulfill sets done_ and sends Fetch.fulfillRequest unconditionally;
resolve_ throws when done_ is already set, otherwise adds requestId,
sets done_ and sends Fetch.continueRequest. -/
def runFrom : List (List Decision) → EventState → List TraceEvent × EventState
  | [], s => ([], s)
  | [] :: rest, s => runFrom rest s
  | (Decision.abort :: ds) :: rest, s =>
      let r := runFrom (ds :: rest) { s with done := true }
      (TraceEvent.cmd (Command.failRequest s.params.requestId "Failed") :: r.1, r.2)
  | (Decision.fail :: ds) :: rest, s =>
      let r := runFrom (ds :: rest) { s with done := true }
      (TraceEvent.cmd (Command.failRequest s.params.requestId "Failed") :: r.1, r.2)
  | (Decision.cont :: ds) :: rest, s =>
      match h : s.handlers with
      | [] =>
          if s.done then
            let r := runFrom (ds :: rest) s
            (TraceEvent.resolutionError :: r.1, r.2)
          else
            let r := runFrom (ds :: rest) { s with done := true }
            (TraceEvent.cmd (Command.continueRequest s.params.requestId none none none) :: r.1, r.2)
      | (k, hscript) :: hs =>
          let r := runFrom (hscript :: ds :: rest) { s with handlers := hs }
          (TraceEvent.invoke k :: r.1, r.2)
  | (Decision.deferToBrowser ov :: ds) :: rest, s =>
      if s.done then
        let r := runFrom (ds :: rest) s
        (TraceEvent.resolutionError :: r.1, r.2)
      else
        let r := runFrom (ds :: rest) { s with done := true }
        (TraceEvent.cmd (continueCommand s.params.requestId ov) :: r.1, r.2)
  | (Decision.fulfill o :: ds) :: rest, s =>
      let r := runFrom (ds :: rest) { s with done := true }
      (TraceEvent.cmd (fulfillCommand s.params.requestId o) :: r.1, r.2)
termination_by stack s => framesWeight stack + queueWeight s.handlers
decreasing_by
all_goals simp_all [framesWeight, queueWeight]
all_goals omega

/-- The event as built by the constructor: captured params, the handler
list tagged with registration indices, done_ initially false. -/
def mkEvent (p : InterceptParams) (scripts : List (List Decision)) : EventState :=
  EventState.mk p (List.enumFrom 0 scripts) false

/-- Full lifecycle of one intercepted request: the constructor calls
callNextHandler_ once, which is the body of continue(), so the initial
call is modelled as a single cont decision. -/
def handleRequest (p : InterceptParams) (scripts : List (List Decision)) :
    List TraceEvent × EventState :=
  runFrom [[Decision.cont]] (mkEvent p scripts)

/-- Handler indices invoked, in trace order. -/
def invokesOf (tr : List TraceEvent) : List Nat :=
  tr.filterMap fun e =>
    match e with
    | TraceEvent.invoke k => some k
    | _ => none

/-- Commands sent, in trace order. -/
def commandsOf (tr : List TraceEvent) : List Command :=
  tr.filterMap fun e =>
    match e with
    | TraceEvent.cmd c => some c
    | _ => none

/-- Number of resolution-conflict errors in a trace. -/
def errorCount (tr : List TraceEvent) : Nat :=
  (tr.filter (fun e => e == TraceEvent.resolutionError)).length

/-- Recognizer for Fetch.continueRequest commands. -/
def isContinueCmd : Command → Bool
  | Command.continueRequest _ _ _ _ => true
  | _ => false

/-- Number of Fetch.continueRequest commands sent in a trace; these are
exactly the sends performed by resolve_. -/
def continueCmdCount (tr : List TraceEvent) : Nat :=
  ((commandsOf tr).filter isContinueCmd).length

/-- Recognizer for the continue decision. -/
def isContDecision : Decision → Bool
  | Decision.cont => true
  | _ => false

/-- Whether a handler script calls continue(). -/
def hasCont (f : List Decision) : Bool :=
  f.any isContDecision

/-- How many times a handler script calls continue(). -/
def contCount (f : List Decision) : Nat :=
  (f.filter isContDecision).length

/-- Number of handlers a chain of well-behaved handlers invokes: the
first handler always runs, and each handler that calls continue() hands
over to the next. -/
def chainLen : List (List Decision) → Nat
  | [] => 0
  | sc :: tl => 1 + (if hasCont sc then chainLen tl else 0)

/-- The invocation indices a chain produces, starting at index i. -/
def chainInv (i : Nat) : List (List Decision) → List Nat
  | [] => []
  | sc :: tl => i :: (if hasCont sc then chainInv (i + 1) tl else [])

/-- The handler queue left over after a chain starting at index i. -/
def chainRest (i : Nat) : List (List Decision) → List (Nat × List Decision)
  | [] => []
  | sc :: tl => if hasCont sc then chainRest (i + 1) tl else List.enumFrom (i + 1) tl

/-- Accessor url(): reads the captured request descriptor. -/
def HttpRequest.url (s : EventState) : String :=
  s.params.request.url

/-- Accessor method(): reads the captured request descriptor. -/
def HttpRequest.method (s : EventState) : String :=
  s.params.request.method

/-- Accessor headers(): the captured header mapping, defaulted to the
empty mapping by `this.params_.request.headers || {}`. -/
def HttpRequest.headers (s : EventState) : List (String × String) :=
  match s.params.request.headers with
  | some h => h
  | none => []

/-- Accessor resourceType(): reads the captured classification. -/
def HttpRequest.resourceType (s : EventState) : String :=
  s.params.resourceType

/-- Sample inbound descriptor for concrete evaluations. -/
def sampleDescriptor : RequestDescriptor :=
  RequestDescriptor.mk "https://example.com/" "GET" none

/-- Sample interception params for concrete evaluations. -/
def sampleParams : InterceptParams :=
  InterceptParams.mk "r1" sampleDescriptor "Document"

/-- Unfolding: empty stack. -/
lemma runFrom_nil (s : EventState) : runFrom [] s = ([], s) := by
  simp [runFrom]

/-- Unfolding: a finished handler frame is popped. -/
lemma runFrom_doneFrame (rest : List (List Decision)) (s : EventState) :
    runFrom ([] :: rest) s = runFrom rest s := by
  simp [runFrom]

/-- Unfolding: abort sends Fetch.failRequest unconditionally. -/
lemma runFrom_abort (ds : List Decision) (rest : List (List Decision)) (s : EventState) :
    runFrom ((Decision.abort :: ds) :: rest) s =
      (TraceEvent.cmd (Command.failRequest s.params.requestId "Failed") ::
          (runFrom (ds :: rest) { s with done := true }).1,
        (runFrom (ds :: rest) { s with done := true }).2) := by
  simp [runFrom]

/-- Unfolding: fail sends Fetch.failRequest unconditionally. -/
lemma runFrom_fail (ds : List Decision) (rest : List (List Decision)) (s : EventState) :
    runFrom ((Decision.fail :: ds) :: rest) s =
      (TraceEvent.cmd (Command.failRequest s.params.requestId "Failed") ::
          (runFrom (ds :: rest) { s with done := true }).1,
        (runFrom (ds :: rest) { s with done := true }).2) := by
  simp [runFrom]

/-- Unfolding: continue() with an empty queue on a resolved event raises
the resolution conflict inside resolve_. -/
lemma runFrom_cont_nil_done (ds : List Decision) (rest : List (List Decision)) (s : EventState)
    (h1 : s.handlers = []) (h2 : s.done = true) :
    runFrom ((Decision.cont :: ds) :: rest) s =
      (TraceEvent.resolutionError :: (runFrom (ds :: rest) s).1, (runFrom (ds :: rest) s).2) := by
  simp only [runFrom]
  split <;> simp_all

/-- Unfolding: continue() with an empty queue on a pending event sends
the default Fetch.continueRequest with only the requestId. -/
lemma runFrom_cont_nil_notdone (ds : List Decision) (rest : List (List Decision)) (s : EventState)
    (h1 : s.handlers = []) (h2 : s.done = false) :
    runFrom ((Decision.cont :: ds) :: rest) s =
      (TraceEvent.cmd (Command.continueRequest s.params.requestId none none none) ::
          (runFrom (ds :: rest) { s with done := true }).1,
        (runFrom (ds :: rest) { s with done := true }).2) := by
  simp only [runFrom]
  split <;> simp_all

/-- Unfolding: continue() with a queued handler shifts and invokes it. -/
lemma runFrom_cont_cons (ds : List Decision) (rest : List (List Decision)) (s : EventState)
    (k : Nat) (hscript : List Decision) (hs : List (Nat × List Decision))
    (h : s.handlers = (k, hscript) :: hs) :
    runFrom ((Decision.cont :: ds) :: rest) s =
      (TraceEvent.invoke k ::
          (runFrom (hscript :: ds :: rest) { s with handlers := hs }).1,
        (runFrom (hscript :: ds :: rest) { s with handlers := hs }).2) := by
  simp only [runFrom]
  split <;> simp_all

/-- Unfolding: deferToBrowser on a resolved event raises the resolution
conflict inside resolve_ and sends nothing. -/
lemma runFrom_defer_done (ov : Option Overrides) (ds : List Decision)
    (rest : List (List Decision)) (s : EventState) (h : s.done = true) :
    runFrom ((Decision.deferToBrowser ov :: ds) :: rest) s =
      (TraceEvent.resolutionError :: (runFrom (ds :: rest) s).1, (runFrom (ds :: rest) s).2) := by
  simp [runFrom, h]

/-- Unfolding: deferToBrowser on a pending event sends its
Fetch.continueRequest command. -/
lemma runFrom_defer_notdone (ov : Option Overrides) (ds : List Decision)
    (rest : List (List Decision)) (s : EventState) (h : s.done = false) :
    runFrom ((Decision.deferToBrowser ov :: ds) :: rest) s =
      (TraceEvent.cmd (continueCommand s.params.requestId ov) ::
          (runFrom (ds :: rest) { s with done := true }).1,
        (runFrom (ds :: rest) { s with done := true }).2) := by
  simp [runFrom, h]

/-- Unfolding: fulfill sends Fetch.fulfillRequest unconditionally. -/
lemma runFrom_fulfill (o : FulfillOptions) (ds : List Decision)
    (rest : List (List Decision)) (s : EventState) :
    runFrom ((Decision.fulfill o :: ds) :: rest) s =
      (TraceEvent.cmd (fulfillCommand s.params.requestId o) ::
          (runFrom (ds :: rest) { s with done := true }).1,
        (runFrom (ds :: rest) { s with done := true }).2) := by
  simp [runFrom]

/-- The captured notification params are never reassigned by any
execution step. -/
lemma runFrom_params (stack : List (List Decision)) (s : EventState) :
    (runFrom stack s).2.params = s.params := by
  induction stack, s using runFrom.induct
  all_goals simp only [runFrom]
  all_goals try split
  all_goals simp_all



@[simp] lemma invokesOf_nil : invokesOf [] = [] := rfl

@[simp] lemma invokesOf_cmd (c : Command) (tr : List TraceEvent) :
    invokesOf (TraceEvent.cmd c :: tr) = invokesOf tr := rfl

@[simp] lemma invokesOf_err (tr : List TraceEvent) :
    invokesOf (TraceEvent.resolutionError :: tr) = invokesOf tr := rfl

@[simp] lemma invokesOf_invoke (k : Nat) (tr : List TraceEvent) :
    invokesOf (TraceEvent.invoke k :: tr) = k :: invokesOf tr := rfl

@[simp] lemma invokesOf_append (t1 t2 : List TraceEvent) :
    invokesOf (t1 ++ t2) = invokesOf t1 ++ invokesOf t2 := by
  simp [invokesOf]

@[simp] lemma commandsOf_nil : commandsOf [] = [] := rfl

@[simp] lemma commandsOf_cmd (c : Command) (tr : List TraceEvent) :
    commandsOf (TraceEvent.cmd c :: tr) = c :: commandsOf tr := rfl

@[simp] lemma commandsOf_err (tr : List TraceEvent) :
    commandsOf (TraceEvent.resolutionError :: tr) = commandsOf tr := rfl

@[simp] lemma commandsOf_invoke (k : Nat) (tr : List TraceEvent) :
    commandsOf (TraceEvent.invoke k :: tr) = commandsOf tr := rfl

@[simp] lemma commandsOf_append (t1 t2 : List TraceEvent) :
    commandsOf (t1 ++ t2) = commandsOf t1 ++ commandsOf t2 := by
  simp [commandsOf]

lemma isContinueCmd_continueCommand (rid : String) (ov : Option Overrides) :
    isContinueCmd (continueCommand rid ov) = true := by
  cases ov <;> rfl

lemma runFrom_queue_shape (stack : List (List Decision)) (s : EventState) :
    ∃ m, invokesOf (runFrom stack s).1 = (s.handlers.take m).map Prod.fst ∧
      (runFrom stack s).2.handlers = s.handlers.drop m := by
  induction stack, s using runFrom.induct with
  | case1 s => exact ⟨0, by simp [runFrom_nil], by simp [runFrom_nil]⟩
  | case2 rest s ih => simpa [runFrom_doneFrame] using ih
  | case3 ds rest s ih =>
      obtain ⟨m, h1, h2⟩ := ih
      exact ⟨m, by simpa [runFrom_abort] using h1, by simpa [runFrom_abort] using h2⟩
  | case4 ds rest s ih =>
      obtain ⟨m, h1, h2⟩ := ih
      exact ⟨m, by simpa [runFrom_fail] using h1, by simpa [runFrom_fail] using h2⟩
  | case5 ds rest s h1 h2 ih =>
      obtain ⟨m, ha, hb⟩ := ih
      exact ⟨m, by simpa [runFrom_cont_nil_done ds rest s h1 h2] using ha,
        by simpa [runFrom_cont_nil_done ds rest s h1 h2] using hb⟩
  | case6 ds rest s h1 h2 ih =>
      obtain ⟨m, ha, hb⟩ := ih
      replace h2 : s.done = false := by simpa using h2
      exact ⟨m, by simpa [runFrom_cont_nil_notdone ds rest s h1 h2] using ha,
        by simpa [runFrom_cont_nil_notdone ds rest s h1 h2] using hb⟩
  | case7 ds rest s k hscript hs h ih =>
      obtain ⟨m, ha, hb⟩ := ih
      refine ⟨m + 1, ?_, ?_⟩
      · simpa [runFrom_cont_cons ds rest s k hscript hs h, h] using ha
      · simpa [runFrom_cont_cons ds rest s k hscript hs h, h] using hb
  | case8 ov ds rest s h ih =>
      obtain ⟨m, ha, hb⟩ := ih
      exact ⟨m, by simpa [runFrom_defer_done ov ds rest s h] using ha,
        by simpa [runFrom_defer_done ov ds rest s h] using hb⟩
  | case9 ov ds rest s h ih =>
      obtain ⟨m, ha, hb⟩ := ih
      replace h : s.done = false := by simpa using h
      exact ⟨m, by simpa [runFrom_defer_notdone ov ds rest s h] using ha,
        by simpa [runFrom_defer_notdone ov ds rest s h] using hb⟩
  | case10 o ds rest s ih =>
      obtain ⟨m, h1, h2⟩ := ih
      exact ⟨m, by simpa [runFrom_fulfill] using h1, by simpa [runFrom_fulfill] using h2⟩



lemma queueWeight_drop_le (l : List (Nat × List Decision)) (m : Nat) :
    queueWeight (l.drop m) ≤ queueWeight l := by
  induction l generalizing m with
  | nil => simp
  | cons a t ih =>
      cases m with
      | zero => simp
      | succ m =>
          calc queueWeight (t.drop m) ≤ queueWeight t := ih m
          _ ≤ queueWeight (a :: t) := by simp [queueWeight]

lemma runFrom_queueWeight_le (stack : List (List Decision)) (s : EventState) :
    queueWeight (runFrom stack s).2.handlers ≤ queueWeight s.handlers := by
  obtain ⟨m, _, h2⟩ := runFrom_queue_shape stack s
  rw [h2]
  exact queueWeight_drop_le s.handlers m

@[simp] lemma continueCmdCount_nil : continueCmdCount [] = 0 := rfl

@[simp] lemma continueCmdCount_invoke (k : Nat) (tr : List TraceEvent) :
    continueCmdCount (TraceEvent.invoke k :: tr) = continueCmdCount tr := rfl

@[simp] lemma continueCmdCount_err (tr : List TraceEvent) :
    continueCmdCount (TraceEvent.resolutionError :: tr) = continueCmdCount tr := rfl

@[simp] lemma continueCmdCount_cmd (c : Command) (tr : List TraceEvent) :
    continueCmdCount (TraceEvent.cmd c :: tr) =
      (if isContinueCmd c then 1 else 0) + continueCmdCount tr := by
  simp only [continueCmdCount, commandsOf_cmd, List.filter_cons]
  split <;> simp <;> omega

lemma isContinueCmd_fulfillCommand (rid : String) (o : FulfillOptions) :
    isContinueCmd (fulfillCommand rid o) = false := rfl

lemma runFrom_continue_bound (stack : List (List Decision)) (s : EventState) :
    continueCmdCount (runFrom stack s).1 ≤ (if s.done then 0 else 1) := by
  induction stack, s using runFrom.induct with
  | case1 s => simp [runFrom_nil]
  | case2 rest s ih => simpa [runFrom_doneFrame] using ih
  | case3 ds rest s ih =>
      simp only [runFrom_abort]
      simp at ih
      simp [isContinueCmd, ih]
  | case4 ds rest s ih =>
      simp only [runFrom_fail]
      simp at ih
      simp [isContinueCmd, ih]
  | case5 ds rest s h1 h2 ih =>
      simp only [runFrom_cont_nil_done ds rest s h1 h2]
      simp [h2] at ih ⊢
      omega
  | case6 ds rest s h1 h2 ih =>
      replace h2 : s.done = false := by simpa using h2
      simp only [runFrom_cont_nil_notdone ds rest s h1 h2]
      simp at ih
      simp [h2, isContinueCmd, ih]
  | case7 ds rest s k hscript hs h ih =>
      simpa [runFrom_cont_cons ds rest s k hscript hs h] using ih
  | case8 ov ds rest s h ih =>
      simp only [runFrom_defer_done ov ds rest s h]
      simp [h] at ih ⊢
      omega
  | case9 ov ds rest s h ih =>
      replace h : s.done = false := by simpa using h
      simp only [runFrom_defer_notdone ov ds rest s h]
      simp at ih
      simp [h, isContinueCmd_continueCommand, ih]
  | case10 o ds rest s ih =>
      simp only [runFrom_fulfill]
      simp at ih
      simp [isContinueCmd_fulfillCommand, ih]



lemma runFrom_cons_split :
    ∀ (n : Nat) (f : List Decision) (rest : List (List Decision)) (s : EventState),
      framesWeight (f :: rest) + queueWeight s.handlers ≤ n →
      runFrom (f :: rest) s =
        ((runFrom [f] s).1 ++ (runFrom rest (runFrom [f] s).2).1,
          (runFrom rest (runFrom [f] s).2).2) := by
  intro n
  induction n with
  | zero =>
      intro f rest s h
      simp [framesWeight] at h
  | succ n ih =>
      intro f rest s hw
      cases rest with
      | nil => simp [runFrom_nil]
      | cons g rs =>
          cases f with
          | nil =>
              simp [runFrom_doneFrame, runFrom_nil]
          | cons d ds =>
              have hw' : framesWeight (ds :: g :: rs) + queueWeight s.handlers ≤ n := by
                simp [framesWeight] at hw ⊢
                omega
              cases d with
              | abort =>
                  rw [runFrom_abort ds (g :: rs) s, runFrom_abort ds [] s]
                  rw [ih ds (g :: rs) { s with done := true } (by simpa using hw')]
                  simp
              | fail =>
                  rw [runFrom_fail ds (g :: rs) s, runFrom_fail ds [] s]
                  rw [ih ds (g :: rs) { s with done := true } (by simpa using hw')]
                  simp
              | cont =>
                  rcases hq : s.handlers with _ | ⟨⟨k, hscript⟩, hs⟩
                  · cases hd : s.done
                    · rw [runFrom_cont_nil_notdone ds (g :: rs) s hq hd,
                        runFrom_cont_nil_notdone ds [] s hq hd]
                      rw [ih ds (g :: rs) { s with done := true } (by simpa using hw')]
                      simp
                    · rw [runFrom_cont_nil_done ds (g :: rs) s hq hd,
                        runFrom_cont_nil_done ds [] s hq hd]
                      rw [ih ds (g :: rs) s hw']
                      simp
                  · have hm1 : framesWeight (hscript :: ds :: g :: rs) + queueWeight hs ≤ n := by
                      simp [framesWeight, queueWeight, hq] at hw ⊢
                      omega
                    have e1 := ih hscript (ds :: g :: rs) { s with handlers := hs } (by simpa using hm1)
                    have hm2 : framesWeight (ds :: g :: rs) +
                        queueWeight (runFrom [hscript] { s with handlers := hs }).2.handlers ≤ n := by
                      have hle := runFrom_queueWeight_le [hscript] { s with handlers := hs }
                      simp [framesWeight, queueWeight, hq] at hw hle ⊢
                      omega
                    have e2 := ih ds (g :: rs) (runFrom [hscript] { s with handlers := hs }).2 hm2
                    have hm3 : framesWeight (hscript :: ds :: [])  + queueWeight hs ≤ n := by
                      simp [framesWeight, queueWeight, hq] at hw ⊢
                      omega
                    have e3 := ih hscript (ds :: []) { s with handlers := hs } (by simpa using hm3)
                    rw [runFrom_cont_cons ds (g :: rs) s k hscript hs hq,
                      runFrom_cont_cons ds [] s k hscript hs hq]
                    rw [e1, e3]
                    simp only []
                    rw [e2]
                    simp
              | deferToBrowser ov =>
                  cases hd : s.done
                  · rw [runFrom_defer_notdone ov ds (g :: rs) s hd,
                      runFrom_defer_notdone ov ds [] s hd]
                    rw [ih ds (g :: rs) { s with done := true } (by simpa using hw')]
                    simp
                  · rw [runFrom_defer_done ov ds (g :: rs) s hd,
                      runFrom_defer_done ov ds [] s hd]
                    rw [ih ds (g :: rs) s hw']
                    simp
              | fulfill o =>
                  rw [runFrom_fulfill o ds (g :: rs) s, runFrom_fulfill o ds [] s]
                  rw [ih ds (g :: rs) { s with done := true } (by simpa using hw')]
                  simp

/-- Composition: running the stack frame f first runs f (and every
handler invocation it triggers) to completion, then resumes the
suspended frames below it from the resulting state. -/
lemma runFrom_cons (f : List Decision) (rest : List (List Decision)) (s : EventState) :
    runFrom (f :: rest) s =
      ((runFrom [f] s).1 ++ (runFrom rest (runFrom [f] s).2).1,
        (runFrom rest (runFrom [f] s).2).2) :=
  runFrom_cons_split (framesWeight (f :: rest) + queueWeight s.handlers) f rest s (le_refl _)



@[simp] lemma hasCont_nil : hasCont [] = false := rfl

lemma hasCont_cons (d : Decision) (ds : List Decision) :
    hasCont (d :: ds) = (isContDecision d || hasCont ds) := by
  simp [hasCont]

lemma contCount_cons (d : Decision) (ds : List Decision) :
    contCount (d :: ds) = (if isContDecision d then 1 else 0) + contCount ds := by
  simp only [contCount, List.filter_cons]
  split <;> simp [Nat.add_comm]

/-- A handler body that never calls continue() invokes no handler and
leaves the queue untouched. -/
lemma runFrom_noCont :
    ∀ (f : List Decision), contCount f = 0 → ∀ (s : EventState),
      invokesOf (runFrom [f] s).1 = [] ∧ (runFrom [f] s).2.handlers = s.handlers := by
  intro f
  induction f with
  | nil =>
      intro _ s
      simp [runFrom_doneFrame, runFrom_nil]
  | cons d ds ih =>
      intro hc s
      cases d with
      | abort =>
          simp [contCount_cons, isContDecision] at hc
          have := ih hc { s with done := true }
          simpa [runFrom_abort] using this
      | fail =>
          simp [contCount_cons, isContDecision] at hc
          have := ih hc { s with done := true }
          simpa [runFrom_fail] using this
      | cont =>
          simp [contCount_cons, isContDecision] at hc
      | deferToBrowser ov =>
          simp [contCount_cons, isContDecision] at hc
          cases hd : s.done
          · have := ih hc { s with done := true }
            simpa [runFrom_defer_notdone ov ds [] s hd] using this
          · have := ih hc s
            simpa [runFrom_defer_done ov ds [] s hd] using this
      | fulfill o =>
          simp [contCount_cons, isContDecision] at hc
          have := ih hc { s with done := true }
          simpa [runFrom_fulfill] using this



lemma runFrom_chain :
    ∀ (n : Nat) (f : List Decision) (i : Nat) (tl : List (List Decision))
      (p : InterceptParams) (dn : Bool),
      framesWeight [f] + queueWeight (List.enumFrom i tl) ≤ n →
      contCount f ≤ 1 →
      (∀ g ∈ tl, contCount g ≤ 1) →
      invokesOf (runFrom [f] (EventState.mk p (List.enumFrom i tl) dn)).1 =
        (if hasCont f then chainInv i tl else []) ∧
      (runFrom [f] (EventState.mk p (List.enumFrom i tl) dn)).2.handlers =
        (if hasCont f then chainRest i tl else List.enumFrom i tl) := by
  intro n
  induction n with
  | zero =>
      intro f i tl p dn hw
      simp [framesWeight] at hw
  | succ n ih =>
      intro f i tl p dn hw hf htl
      cases f with
      | nil =>
          simp [runFrom_doneFrame, runFrom_nil]
      | cons d ds =>
          have hw' : framesWeight [ds] + queueWeight (List.enumFrom i tl) ≤ n := by
            simp [framesWeight] at hw ⊢
            omega
          cases d with
          | abort =>
              have hc : contCount ds ≤ 1 := by
                simpa [contCount_cons, isContDecision] using hf
              have := ih ds i tl p true hw' hc htl
              simpa [runFrom_abort, hasCont_cons, isContDecision] using this
          | fail =>
              have hc : contCount ds ≤ 1 := by
                simpa [contCount_cons, isContDecision] using hf
              have := ih ds i tl p true hw' hc htl
              simpa [runFrom_fail, hasCont_cons, isContDecision] using this
          | fulfill o =>
              have hc : contCount ds ≤ 1 := by
                simpa [contCount_cons, isContDecision] using hf
              have := ih ds i tl p true hw' hc htl
              simpa [runFrom_fulfill, hasCont_cons, isContDecision] using this
          | deferToBrowser ov =>
              have hc : contCount ds ≤ 1 := by
                simpa [contCount_cons, isContDecision] using hf
              cases dn
              · have := ih ds i tl p true hw' hc htl
                simpa [runFrom_defer_notdone ov ds []
                    (EventState.mk p (List.enumFrom i tl) false) rfl,
                  hasCont_cons, isContDecision] using this
              · have := ih ds i tl p true hw' hc htl
                simpa [runFrom_defer_done ov ds []
                    (EventState.mk p (List.enumFrom i tl) true) rfl,
                  hasCont_cons, isContDecision] using this
          | cont =>
              have hc0 : contCount ds = 0 := by
                simp [contCount_cons, isContDecision] at hf
                omega
              have hnc := runFrom_noCont ds hc0
              cases tl with
              | nil =>
                  cases dn
                  · have h1 := hnc (EventState.mk p [] true)
                    simpa [runFrom_cont_nil_notdone ds []
                        (EventState.mk p [] false) rfl rfl,
                      hasCont_cons, isContDecision, List.enumFrom, chainInv, chainRest] using h1
                  · have h1 := hnc (EventState.mk p [] true)
                    simpa [runFrom_cont_nil_done ds []
                        (EventState.mk p [] true) rfl rfl,
                      hasCont_cons, isContDecision, List.enumFrom, chainInv, chainRest] using h1
              | cons sc tl2 =>
                  have hq : (EventState.mk p (List.enumFrom i (sc :: tl2)) dn).handlers =
                      (i, sc) :: List.enumFrom (i + 1) tl2 := rfl
                  rw [runFrom_cont_cons ds [] _ i sc (List.enumFrom (i + 1) tl2) hq]
                  rw [runFrom_cons sc [ds] (EventState.mk p (List.enumFrom (i + 1) tl2) dn)]
                  have hwsc : framesWeight [sc] + queueWeight (List.enumFrom (i + 1) tl2) ≤ n := by
                    simp [framesWeight, queueWeight, List.enumFrom] at hw ⊢
                    omega
                  have hsc : contCount sc ≤ 1 := htl sc (by simp)
                  have htl2 : ∀ g ∈ tl2, contCount g ≤ 1 := fun g hg => htl g (by simp [hg])
                  have hch := ih sc (i + 1) tl2 p dn hwsc hsc htl2
                  have hds := hnc (runFrom [sc] (EventState.mk p (List.enumFrom (i + 1) tl2) dn)).2
                  constructor
                  · simp only [invokesOf_invoke, invokesOf_append, hch.1, hds.1]
                    simp [chainInv, hasCont_cons, isContDecision]
                  · simp only [hds.2, hch.2]
                    simp [chainRest, hasCont_cons, isContDecision]



/-- The invocation indices of a chain form a contiguous range. -/
lemma chainInv_range :
    ∀ (tl : List (List Decision)) (i : Nat), chainInv i tl = List.range' i (chainLen tl) 1 := by
  intro tl
  induction tl with
  | nil => intro i; simp [chainInv, chainLen]
  | cons sc tl ih =>
      intro i
      by_cases hsc : hasCont sc = true
      · simp [chainInv, chainLen, hsc, Nat.add_comm, List.range'_succ, ih]
      · simp [chainInv, chainLen, hsc, List.range'_succ]

/-- A position is below the chain length iff it is a valid position and
every handler strictly before it calls continue(). -/
lemma chainLen_lt_iff :
    ∀ (tl : List (List Decision)) (k : Nat),
      k < chainLen tl ↔
        (k < tl.length ∧ ∀ j, j < k → hasCont (tl.getD j []) = true) := by
  intro tl
  induction tl with
  | nil => intro k; simp [chainLen]
  | cons sc tl ih =>
      intro k
      by_cases hsc : hasCont sc = true
      · cases k with
        | zero => simp [chainLen]
        | succ k =>
            have := ih k
            simp only [chainLen, hsc, if_pos]
            constructor
            · intro hk
              have hk' : k < chainLen tl := by omega
              obtain ⟨h1, h2⟩ := this.mp hk'
              refine ⟨by simpa using h1, ?_⟩
              intro j hj
              cases j with
              | zero => simpa using hsc
              | succ j => simpa using h2 j (by omega)
            · rintro ⟨h1, h2⟩
              have hk' : k < chainLen tl := by
                refine this.mpr ⟨by simpa using h1, ?_⟩
                intro j hj
                simpa using h2 (j + 1) (by omega)
              omega
      · simp only [chainLen, hsc, if_neg, Bool.not_eq_true]
        constructor
        · intro hk
          have : k = 0 := by omega
          subst this
          simp
        · rintro ⟨h1, h2⟩
          rcases Nat.eq_zero_or_pos k with rfl | hpos
          · omega
          · have := h2 0 hpos
            simp at this
            rw [this] at hsc
            simp at hsc



/-- When every decision every handler ever takes is continue(), every
command that gets sent is a Fetch.continueRequest (the resolve_ path). -/
lemma runFrom_contOnly_cmds :
    ∀ (stack : List (List Decision)) (s : EventState),
      (∀ f ∈ stack, ∀ d ∈ f, d = Decision.cont) →
      (∀ kh ∈ s.handlers, ∀ d ∈ kh.2, d = Decision.cont) →
      ∀ c ∈ commandsOf (runFrom stack s).1, isContinueCmd c = true := by
  intro stack s
  induction stack, s using runFrom.induct with
  | case1 s =>
      intro _ _ c hc
      simp [runFrom_nil] at hc
  | case2 rest s ih =>
      intro h1 h2
      rw [runFrom_doneFrame]
      exact ih (fun f hf => h1 f (by simp [hf])) h2
  | case3 ds rest s ih =>
      intro h1 h2
      have := h1 (Decision.abort :: ds) (by simp) Decision.abort (by simp)
      simp at this
  | case4 ds rest s ih =>
      intro h1 h2
      have := h1 (Decision.fail :: ds) (by simp) Decision.fail (by simp)
      simp at this
  | case5 ds rest s hq hd ih =>
      intro h1 h2
      rw [runFrom_cont_nil_done ds rest s hq hd]
      intro c hc
      simp only [commandsOf_err] at hc
      have hframes : ∀ f ∈ ds :: rest, ∀ d ∈ f, d = Decision.cont := by
        intro f hf d hdm
        rcases List.mem_cons.mp hf with rfl | hf2
        · exact h1 (Decision.cont :: f) (by simp) d (by simp [hdm])
        · exact h1 f (by simp [hf2]) d hdm
      exact ih hframes h2 c hc
  | case6 ds rest s hq hd ih =>
      intro h1 h2
      replace hd : s.done = false := by simpa using hd
      rw [runFrom_cont_nil_notdone ds rest s hq hd]
      intro c hc
      simp only [commandsOf_cmd, List.mem_cons] at hc
      rcases hc with rfl | hc
      · rfl
      · have hframes : ∀ f ∈ ds :: rest, ∀ d ∈ f, d = Decision.cont := by
          intro f hf d hdm
          rcases List.mem_cons.mp hf with rfl | hf2
          · exact h1 (Decision.cont :: f) (by simp) d (by simp [hdm])
          · exact h1 f (by simp [hf2]) d hdm
        exact ih hframes h2 c hc
  | case7 ds rest s k hscript hs hq ih =>
      intro h1 h2
      rw [runFrom_cont_cons ds rest s k hscript hs hq]
      intro c hc
      simp only [commandsOf_invoke] at hc
      refine ih ?_ ?_ c hc
      · intro f hf d hdm
        rcases List.mem_cons.mp hf with rfl | hf2
        · exact h2 (k, f) (by simp [hq]) d hdm
        · rcases List.mem_cons.mp hf2 with rfl | hf3
          · exact h1 (Decision.cont :: f) (by simp) d (by simp [hdm])
          · exact h1 f (by simp [hf3]) d hdm
      · intro kh hkh
        exact h2 kh (by simp [hq, hkh])
  | case8 ov ds rest s hd ih =>
      intro h1 h2
      have := h1 (Decision.deferToBrowser ov :: ds) (by simp) (Decision.deferToBrowser ov) (by simp)
      simp at this
  | case9 ov ds rest s hd ih =>
      intro h1 h2
      have := h1 (Decision.deferToBrowser ov :: ds) (by simp) (Decision.deferToBrowser ov) (by simp)
      simp at this
  | case10 o ds rest s ih =>
      intro h1 h2
      have := h1 (Decision.fulfill o :: ds) (by simp) (Decision.fulfill o) (by simp)
      simp at this



/-- Claim C1 (counterexample): the source guards only resolve_ with the
done_ check.  A handler that calls abort() twice makes the event send
Fetch.failRequest twice, with no resolution-conflict error, contradicting
the claim that a second decision call fails and sends nothing. -/
theorem C1_counterexample :
    commandsOf (handleRequest sampleParams [[Decision.abort, Decision.abort]]).1 =
      [Command.failRequest "r1" "Failed", Command.failRequest "r1" "Failed"] ∧
    errorCount (handleRequest sampleParams [[Decision.abort, Decision.abort]]).1 = 0 := by
  constructor <;>
    simp [handleRequest, mkEvent, runFrom, sampleParams, List.enumFrom, errorCount]

/-- Claim C1 (amended): only the decision paths that go through resolve_
(deferToBrowser, and the implicit default continue when the handler
queue is exhausted) check the resolved flag: invoked while already
resolved they raise the resolution-conflict error and send nothing.
abort, fail and fulfill do not check the flag and send their command
unconditionally, so at most one Fetch.continueRequest is ever sent for
an event, but repeated abort/fail/fulfill calls each send a command. -/
theorem C1_resolution_guard (s : EventState) (ov : Option Overrides) (o : FulfillOptions)
    (hdone : s.done = true) :
    (runFrom [[Decision.deferToBrowser ov]] s).1 = [TraceEvent.resolutionError] ∧
    (s.handlers = [] → (runFrom [[Decision.cont]] s).1 = [TraceEvent.resolutionError]) ∧
    (runFrom [[Decision.abort]] s).1 =
      [TraceEvent.cmd (Command.failRequest s.params.requestId "Failed")] ∧
    (runFrom [[Decision.fail]] s).1 =
      [TraceEvent.cmd (Command.failRequest s.params.requestId "Failed")] ∧
    (runFrom [[Decision.fulfill o]] s).1 =
      [TraceEvent.cmd (fulfillCommand s.params.requestId o)] ∧
    ∀ (stack : List (List Decision)) (s2 : EventState), s2.done = false →
      continueCmdCount (runFrom stack s2).1 ≤ 1 := by
  refine ⟨?_, ?_, ?_, ?_, ?_, ?_⟩
  · rw [runFrom_defer_done ov [] [] s hdone]
    simp [runFrom_doneFrame, runFrom_nil]
  · intro hq
    rw [runFrom_cont_nil_done [] [] s hq hdone]
    simp [runFrom_doneFrame, runFrom_nil]
  · rw [runFrom_abort [] [] s]
    simp [runFrom_doneFrame, runFrom_nil]
  · rw [runFrom_fail [] [] s]
    simp [runFrom_doneFrame, runFrom_nil]
  · rw [runFrom_fulfill o [] [] s]
    simp [runFrom_doneFrame, runFrom_nil]
  · intro stack s2 h2
    have hb := runFrom_continue_bound stack s2
    rw [h2] at hb
    simpa using hb

/-- Witness for C1_resolution_guard at a concrete resolved event. -/
theorem C1_resolution_guard_witness :
    (EventState.mk sampleParams [] true).done = true ∧
    (runFrom [[Decision.deferToBrowser none]] (EventState.mk sampleParams [] true)).1 =
      [TraceEvent.resolutionError] :=
  ⟨rfl, (C1_resolution_guard (EventState.mk sampleParams [] true) none
      (FulfillOptions.mk none none none) rfl).1⟩

/-- Claim C6 (counterexample): deferToBrowser with an overrides object
whose url field is present but empty emits a Fetch.continueRequest whose
url field is absent: presence of the field does not imply inclusion. -/
theorem C6_counterexample :
    (Overrides.mk (some "") (some "POST") none).url = some "" ∧
    commandsOf (handleRequest sampleParams
        [[Decision.deferToBrowser (some (Overrides.mk (some "") (some "POST") none))]]).1 =
      [Command.continueRequest "r1" none (some "POST") none] := by
  refine ⟨rfl, ?_⟩
  simp [handleRequest, mkEvent, runFrom, sampleParams, List.enumFrom, continueCommand, truthyStr]

/-- Claim C6 (amended): deferToBrowser sends a continue command carrying
the request id plus exactly the override fields that are present with
truthy values (non-empty strings for url and method, any supplied object
for headers); deferToBrowser with only method POST emits a command
containing only requestId and method. -/
theorem C6_defer_truthy_fields (s : EventState) (ov : Overrides) (hdone : s.done = false) :
    (runFrom [[Decision.deferToBrowser (some ov)]] s).1 =
      [TraceEvent.cmd (Command.continueRequest s.params.requestId
        (truthyStr ov.url) (truthyStr ov.method) ov.headers)] ∧
    (runFrom [[Decision.deferToBrowser (some (Overrides.mk none (some "POST") none))]] s).1 =
      [TraceEvent.cmd (Command.continueRequest s.params.requestId none (some "POST") none)] := by
  constructor
  · rw [runFrom_defer_notdone _ [] [] s hdone]
    simp [runFrom_doneFrame, runFrom_nil, continueCommand]
  · rw [runFrom_defer_notdone _ [] [] s hdone]
    simp [runFrom_doneFrame, runFrom_nil, continueCommand, truthyStr]

/-- Witness for C6_defer_truthy_fields at a concrete pending event. -/
theorem C6_defer_truthy_fields_witness :
    (EventState.mk sampleParams [] false).done = false ∧
    (runFrom [[Decision.deferToBrowser (some (Overrides.mk none (some "POST") none))]]
        (EventState.mk sampleParams [] false)).1 =
      [TraceEvent.cmd (Command.continueRequest "r1" none (some "POST") none)] :=
  ⟨rfl, (C6_defer_truthy_fields (EventState.mk sampleParams [] false)
      (Overrides.mk none (some "POST") none) rfl).2⟩

/-- Claim C7: abort() and fail() run identically from any state and in
any context: same Fetch.failRequest command name, same errorReason
Failed, same requestId, same resulting state. -/
theorem C7_abort_fail_identical (ds : List Decision) (rest : List (List Decision))
    (s : EventState) :
    runFrom ((Decision.abort :: ds) :: rest) s = runFrom ((Decision.fail :: ds) :: rest) s ∧
    (runFrom [[Decision.abort]] s).1 =
      [TraceEvent.cmd (Command.failRequest s.params.requestId "Failed")] ∧
    (commandsOf (runFrom [[Decision.abort]] s).1).map commandName = ["Fetch.failRequest"] := by
  refine ⟨by rw [runFrom_abort, runFrom_fail], ?_, ?_⟩
  · rw [runFrom_abort [] [] s]
    simp [runFrom_doneFrame, runFrom_nil]
  · rw [runFrom_abort [] [] s]
    simp [runFrom_doneFrame, runFrom_nil, commandName]

/-- Claim C10: deferToBrowser tests override fields by truthiness, not
key presence: url and method that are present but empty are omitted, a
present headers object is kept, and calling with no argument emits a
command containing only the requestId. -/
theorem C10_truthiness_not_presence (s : EventState) (hdone : s.done = false)
    (hm : List (String × String)) :
    (runFrom [[Decision.deferToBrowser none]] s).1 =
      [TraceEvent.cmd (Command.continueRequest s.params.requestId none none none)] ∧
    (runFrom [[Decision.deferToBrowser
        (some (Overrides.mk (some "") (some "") (some hm)))]] s).1 =
      [TraceEvent.cmd (Command.continueRequest s.params.requestId none none (some hm))] := by
  constructor
  · rw [runFrom_defer_notdone _ [] [] s hdone]
    simp [runFrom_doneFrame, runFrom_nil, continueCommand]
  · rw [runFrom_defer_notdone _ [] [] s hdone]
    simp [runFrom_doneFrame, runFrom_nil, continueCommand, truthyStr]

/-- Witness for C10_truthiness_not_presence at a concrete pending event. -/
theorem C10_truthiness_not_presence_witness :
    (EventState.mk sampleParams [] false).done = false ∧
    (runFrom [[Decision.deferToBrowser
        (some (Overrides.mk (some "") (some "") (some [("a", "b")])))]]
        (EventState.mk sampleParams [] false)).1 =
      [TraceEvent.cmd (Command.continueRequest "r1" none none (some [("a", "b")]))] :=
  ⟨rfl, (C10_truthiness_not_presence (EventState.mk sampleParams [] false) rfl [("a", "b")]).2⟩



lemma invoke_mem_iff (k : Nat) (tr : List TraceEvent) :
    TraceEvent.invoke k ∈ tr ↔ k ∈ invokesOf tr := by
  induction tr with
  | nil => simp
  | cons e tr ih => cases e <;> simp [ih]

/-- Claim C2: with each handler calling continue() at most once, the
invocation indices are exactly the contiguous range up to the chain
length, and handler k is invoked iff k is a valid index and every
handler registered before it calls continue(). -/
theorem C2_handler_chain (p : InterceptParams) (scripts : List (List Decision))
    (hwf : ∀ g ∈ scripts, contCount g ≤ 1) :
    invokesOf (handleRequest p scripts).1 = List.range' 0 (chainLen scripts) 1 ∧
    ∀ k, TraceEvent.invoke k ∈ (handleRequest p scripts).1 ↔
      (k < scripts.length ∧ ∀ j, j < k → hasCont (scripts.getD j []) = true) := by
  have hch := runFrom_chain
      (framesWeight [[Decision.cont]] + queueWeight (List.enumFrom 0 scripts))
      [Decision.cont] 0 scripts p false (le_refl _)
      (by simp [contCount, isContDecision]) hwf
  have hHC : hasCont [Decision.cont] = true := by simp [hasCont, isContDecision]
  have heq : invokesOf (handleRequest p scripts).1 = List.range' 0 (chainLen scripts) 1 := by
    have h1 := hch.1
    rw [hHC] at h1
    simp only [if_pos] at h1
    rw [show (handleRequest p scripts).1 =
        (runFrom [[Decision.cont]] (EventState.mk p (List.enumFrom 0 scripts) false)).1 from rfl]
    rw [h1, chainInv_range]
  refine ⟨heq, ?_⟩
  intro k
  rw [invoke_mem_iff, heq, List.mem_range'_1]
  simp only [Nat.zero_le, true_and, Nat.zero_add]
  rw [chainLen_lt_iff]

/-- Witness for C2_handler_chain on a two-handler chain whose first
handler calls continue() and whose second aborts. -/
theorem C2_handler_chain_witness :
    invokesOf (handleRequest sampleParams [[Decision.cont], [Decision.abort]]).1 =
      List.range' 0 (chainLen [[Decision.cont], [Decision.abort]]) 1 :=
  (C2_handler_chain sampleParams [[Decision.cont], [Decision.abort]] (by decide)).1



lemma runFrom_cont_replicate :
    ∀ (n i : Nat) (p : InterceptParams),
      runFrom [[Decision.cont]]
          (EventState.mk p (List.enumFrom i (List.replicate n [Decision.cont])) false) =
        ((List.range' i n 1).map TraceEvent.invoke ++
            [TraceEvent.cmd (Command.continueRequest p.requestId none none none)],
          EventState.mk p [] true) := by
  intro n
  induction n with
  | zero =>
      intro i p
      simp only [List.replicate_zero, List.enumFrom_nil]
      rw [runFrom_cont_nil_notdone [] [] (EventState.mk p [] false) rfl rfl]
      simp [runFrom_doneFrame, runFrom_nil]
  | succ n ih =>
      intro i p
      rw [runFrom_cont_cons [] [] (EventState.mk p
          (List.enumFrom i (List.replicate (n + 1) [Decision.cont])) false)
          i [Decision.cont] (List.enumFrom (i + 1) (List.replicate n [Decision.cont])) rfl]
      rw [show ({ EventState.mk p (List.enumFrom i (List.replicate (n + 1) [Decision.cont])) false
          with handlers := List.enumFrom (i + 1) (List.replicate n [Decision.cont]) }) =
          EventState.mk p (List.enumFrom (i + 1) (List.replicate n [Decision.cont])) false from rfl]
      rw [runFrom_cons [Decision.cont] [[]]
          (EventState.mk p (List.enumFrom (i + 1) (List.replicate n [Decision.cont])) false)]
      rw [ih (i + 1) p]
      simp [runFrom_doneFrame, runFrom_nil, List.range'_succ]

/-- Claim C3: an event with no handlers resolves by the default continue
command carrying only the requestId; likewise a chain in which every
handler just calls continue() runs every handler in order and then sends
the same no-override continue command. -/
theorem C3_default_continue (p : InterceptParams) :
    (handleRequest p []).1 =
      [TraceEvent.cmd (Command.continueRequest p.requestId none none none)] ∧
    ∀ n : Nat, (handleRequest p (List.replicate n [Decision.cont])).1 =
      (List.range n).map TraceEvent.invoke ++
        [TraceEvent.cmd (Command.continueRequest p.requestId none none none)] := by
  constructor
  · rw [show handleRequest p [] =
        runFrom [[Decision.cont]] (EventState.mk p [] false) from rfl]
    rw [runFrom_cont_nil_notdone [] [] (EventState.mk p [] false) rfl rfl]
    simp [runFrom_doneFrame, runFrom_nil]
  · intro n
    rw [show handleRequest p (List.replicate n [Decision.cont]) =
        runFrom [[Decision.cont]]
          (EventState.mk p (List.enumFrom 0 (List.replicate n [Decision.cont])) false) from rfl]
    rw [runFrom_cont_replicate n 0 p]
    rw [List.range_eq_range']



/-- Claim C4: fulfill with status 404, empty headers and body hello
sends Fetch.fulfillRequest with responseCode 404, a computed
content-length header of 5, and the base64 body aGVsbG8= which decodes
back to the UTF-8 bytes of hello. -/
theorem C4_fulfill_hello (p : InterceptParams) :
    (handleRequest p
        [[Decision.fulfill (FulfillOptions.mk (some 404) (some []) (some "hello"))]]).1 =
      [TraceEvent.invoke 0,
        TraceEvent.cmd (Command.fulfillRequest p.requestId 404
          [Header.mk "content-length" "5"] "aGVsbG8=")] ∧
    base64Decode "aGVsbG8=" = stringBytes "hello" ∧
    byteLength "hello" = 5 := by
  refine ⟨?_, by decide, by decide⟩
  simp [handleRequest, mkEvent, runFrom, List.enumFrom]
  rfl

lemma shapeHeaders_go (hm : List (String × String)) :
    ∀ acc : List Header × Bool,
      hm.foldl
          (fun acc h =>
            let headerName := lowerString h.1
            (acc.1 ++ [Header.mk headerName h.2], acc.2 || (headerName == "content-length")))
          acc =
        (acc.1 ++ hm.map (fun kv => Header.mk (lowerString kv.1) kv.2),
          acc.2 || hm.any (fun kv => lowerString kv.1 == "content-length")) := by
  induction hm with
  | nil => intro acc; simp
  | cons kv hm ih =>
      intro acc
      simp only [List.foldl_cons, List.map_cons, List.any_cons, ih]
      simp [Bool.or_assoc]

lemma shapeHeaders_spec (hm : List (String × String)) :
    shapeHeaders hm =
      (hm.map (fun kv => Header.mk (lowerString kv.1) kv.2),
        hm.any (fun kv => lowerString kv.1 == "content-length")) := by
  rw [shapeHeaders, shapeHeaders_go hm ([], false)]
  simp

/-- Claim C5: when the supplied header mapping already contains a
content-length entry under any letter casing, fulfill emits exactly the
supplied headers with names lower-cased and values verbatim, appending
no extra content-length entry, whatever the body and status are. -/
theorem C5_supplied_content_length (s : EventState) (hm : List (String × String))
    (st : Option Nat) (body : Option String)
    (hcl : ∃ kv ∈ hm, lowerString kv.1 = "content-length") :
    (runFrom [[Decision.fulfill (FulfillOptions.mk st (some hm) body)]] s).1 =
      [TraceEvent.cmd (Command.fulfillRequest s.params.requestId (jsStatusOr200 st)
        (hm.map (fun kv => Header.mk (lowerString kv.1) kv.2))
        (base64Encode (stringBytes (jsBodyString body))))] := by
  rw [runFrom_fulfill _ [] [] s]
  have hany : hm.any (fun kv => lowerString kv.1 == "content-length") = true := by
    obtain ⟨kv, hkv, he⟩ := hcl
    exact List.any_eq_true.mpr ⟨kv, hkv, by simp [he]⟩
  simp [runFrom_doneFrame, runFrom_nil, fulfillCommand, shapeHeaders_spec, hany]

/-- Witness for C5_supplied_content_length: a pre-supplied
Content-Length header of 99 with body hi is lower-cased, kept verbatim
and not duplicated. -/
theorem C5_supplied_content_length_witness :
    (∃ kv ∈ [("Content-Length", "99")], lowerString kv.1 = "content-length") ∧
    (runFrom [[Decision.fulfill
        (FulfillOptions.mk none (some [("Content-Length", "99")]) (some "hi"))]]
        (EventState.mk sampleParams [] false)).1 =
      [TraceEvent.cmd (Command.fulfillRequest "r1" 200
        [Header.mk "content-length" "99"] "aGk=")] := by
  refine ⟨⟨("Content-Length", "99"), by simp, by decide⟩, ?_⟩
  rw [C5_supplied_content_length (EventState.mk sampleParams [] false)
      [("Content-Length", "99")] none (some "hi")
      ⟨("Content-Length", "99"), by simp, by decide⟩]
  rfl



/-- Claim C8: whatever the handlers do, no handler is ever invoked twice
(the queue is destructively shifted); and when the only decision ever
taken is continue() (for example two buggy handlers both calling it),
at most one command is sent for the request, because every command then
goes through the resolve_ guard. -/
theorem C8_double_continue_safe (p : InterceptParams) (scripts : List (List Decision)) :
    (invokesOf (handleRequest p scripts).1).Nodup ∧
    ((∀ g ∈ scripts, ∀ d ∈ g, d = Decision.cont) →
      (commandsOf (handleRequest p scripts).1).length ≤ 1) := by
  constructor
  · obtain ⟨m, h1, h2⟩ := runFrom_queue_shape [[Decision.cont]] (mkEvent p scripts)
    rw [show (handleRequest p scripts).1 =
        (runFrom [[Decision.cont]] (mkEvent p scripts)).1 from rfl, h1]
    rw [show (mkEvent p scripts).handlers = List.enumFrom 0 scripts from rfl]
    rw [List.map_take, List.enumFrom_map_fst]
    exact (List.take_sublist m _).nodup (List.nodup_range' _ _)
  · intro hall
    have hcmds := runFrom_contOnly_cmds [[Decision.cont]] (mkEvent p scripts)
        (by
          intro f hf d hd
          simp at hf
          subst hf
          simpa using hd)
        (by
          intro kh hkh d hd
          rcases kh with ⟨k, g⟩
          have h3 := List.mem_enumFrom hkh
          have hg : g ∈ scripts := by
            rw [h3.2.2]
            exact List.getElem_mem _
          exact hall g hg d hd)
    have hfix : (commandsOf (runFrom [[Decision.cont]] (mkEvent p scripts)).1).filter
        isContinueCmd = commandsOf (runFrom [[Decision.cont]] (mkEvent p scripts)).1 :=
      List.filter_eq_self.mpr hcmds
    have hb := runFrom_continue_bound [[Decision.cont]] (mkEvent p scripts)
    rw [show (mkEvent p scripts).done = false from rfl] at hb
    simp only [continueCmdCount, hfix, if_neg] at hb
    simpa using hb

/-- Witness for C8_double_continue_safe on a chain whose first handler
calls continue() twice. -/
theorem C8_double_continue_safe_witness :
    (invokesOf (handleRequest sampleParams [[Decision.cont, Decision.cont], []]).1).Nodup ∧
    (commandsOf (handleRequest sampleParams [[Decision.cont, Decision.cont], []]).1).length ≤ 1 :=
  ⟨(C8_double_continue_safe sampleParams [[Decision.cont, Decision.cont], []]).1,
    (C8_double_continue_safe sampleParams [[Decision.cont, Decision.cont], []]).2 (by decide)⟩

/-- Claim C9: the accessors url, method, headers and resourceType are
pure reads of the captured params, which no execution step ever mutates,
so they return the construction-time values before and after resolution;
headers defaults to the empty mapping when the inbound descriptor
carries none; only the handler queue and the done flag change. -/
theorem C9_pure_accessors (stack : List (List Decision)) (s : EventState)
    (p : InterceptParams) (hnone : p.request.headers = none) :
    HttpRequest.url (runFrom stack s).2 = HttpRequest.url s ∧
    HttpRequest.method (runFrom stack s).2 = HttpRequest.method s ∧
    HttpRequest.headers (runFrom stack s).2 = HttpRequest.headers s ∧
    HttpRequest.resourceType (runFrom stack s).2 = HttpRequest.resourceType s ∧
    (runFrom stack s).2.params = s.params ∧
    HttpRequest.headers (EventState.mk p [] false) = [] := by
  have hp := runFrom_params stack s
  refine ⟨?_, ?_, ?_, ?_, hp, ?_⟩ <;>
    simp [HttpRequest.url, HttpRequest.method, HttpRequest.headers,
      HttpRequest.resourceType, hp, hnone]

/-- Witness for C9_pure_accessors: the sample descriptor has no header
mapping and the accessor returns the empty mapping. -/
theorem C9_pure_accessors_witness :
    sampleParams.request.headers = none ∧
    HttpRequest.headers (EventState.mk sampleParams [] false) = [] :=
  ⟨rfl, (C9_pure_accessors [] (EventState.mk sampleParams [] false) sampleParams rfl).2.2.2.2.2⟩

end Carlo
